import Mathlib

set_option maxHeartbeats 1000000

/-! Verification of the routing, text-sanitization, model-gateway, summary
and query-suggestion logic of the "Conversation with your vulnerabilities"
application. Python strings are modelled as `List Char`; every modelled
function names the source file and lines it is translated from. -/

/-! ## Python string primitives -/

/-- Boolean test: `p` is a leading segment of `s` (Python `s.startswith(p)`). -/
def isPre : List Char → List Char → Bool
  | [], _ => true
  | _ :: _, [] => false
  | p :: ps, c :: cs => p == c && isPre ps cs

/-- Boolean test: `p` occurs contiguously inside `s` (Python `p in s`). -/
def isSubstr (p : List Char) : List Char → Bool
  | [] => p.isEmpty
  | c :: cs => isPre p (c :: cs) || isSubstr p cs

/-- Boolean test: `p` is a trailing segment of `s` (Python `s.endswith(p)`). -/
def isSuffix (p s : List Char) : Bool := isPre p.reverse s.reverse

/-- One pass of Python `str.replace` for the non-empty pattern `a :: ps` and
replacement `r`. The `Nat` argument counts characters still owed to a
previous match, so matches are found left to right and never overlap. -/
def replaceAllAux (a : Char) (ps r : List Char) : Nat → List Char → List Char
  | _, [] => []
  | Nat.succ k, _ :: cs => replaceAllAux a ps r k cs
  | 0, c :: cs =>
    if isPre (a :: ps) (c :: cs) then r ++ replaceAllAux a ps r ps.length cs
    else c :: replaceAllAux a ps r 0 cs

/-- Python `s.replace(p, r)` (all occurrences, left to right, non-overlapping).
Every call site in the repository uses a non-empty pattern, so the empty
pattern (which Python treats specially) is mapped to the identity. -/
def pyReplace (p r s : List Char) : List Char :=
  match p with
  | [] => s
  | a :: ps => replaceAllAux a ps r 0 s

/-- Single-character-pattern replacement; proved equal to `pyReplace [a] r`. -/
def replaceChar (a : Char) (r : List Char) : List Char → List Char
  | [] => []
  | c :: cs => if c == a then r ++ replaceChar a r cs else c :: replaceChar a r cs

/-- Two-character-pattern, one-character-replacement form of Python replace;
proved equal to `pyReplace [a, b] [e]`. -/
def replacePair (a b e : Char) : List Char → List Char
  | [] => []
  | [c] => [c]
  | c :: d :: rest =>
    if c == a && d == b then e :: replacePair a b e rest
    else c :: replacePair a b e (d :: rest)

/-- Boolean test: the two-character sequence `a, b` occurs in `s`. -/
def hasPair (a b : Char) : List Char → Bool
  | [] => false
  | [_] => false
  | c :: d :: rest => (c == a && d == b) || hasPair a b (d :: rest)

/-- The character class Python `str.split()` / `str.strip()` treat as
whitespace (`str.isspace`). -/
def pyIsSpace (c : Char) : Bool :=
  [' ', '\t', '\n', '\u000B', '\u000C', '\r', '\u001C', '\u001D', '\u001E',
   '\u001F', '\u0085', ' ', ' ', ' ', ' ', ' ',
   ' ', ' ', ' ', ' ', ' ', ' ', ' ',
   ' ', ' ', ' ', ' ', ' ', '　'].contains c

/-- Worker for Python `s.split()`: `acc` holds the characters of the word
currently being read, most recent first. Runs of whitespace separate words
and empty words are never produced. -/
def pySplitAux (acc : List Char) : List Char → List (List Char)
  | [] => if acc.isEmpty then [] else [acc.reverse]
  | c :: cs =>
    if pyIsSpace c then
      if acc.isEmpty then pySplitAux [] cs else acc.reverse :: pySplitAux [] cs
    else pySplitAux (c :: acc) cs

/-- Python `s.split()` with no separator: split on runs of whitespace,
discarding empty fields. -/
def pySplit (s : List Char) : List (List Char) := pySplitAux [] s

/-- Python `' '.join(ts)`: one single space between consecutive fields. -/
def joinSp : List (List Char) → List Char
  | [] => []
  | t :: ts =>
    match ts with
    | [] => t
    | _ :: _ => t ++ ' ' :: joinSp ts

/-- Python `s.strip()`: remove leading and trailing whitespace. -/
def pyStrip (s : List Char) : List Char :=
  ((s.dropWhile pyIsSpace).reverse.dropWhile pyIsSpace).reverse

/-! ## Constants from `constants.py` and the prompt registry -/

/-- `ModelType.NONE.value` (constants.py line 10). -/
def ModelType_NONE : List Char := "None".toList

/-- `ModelType.GPT.value` (constants.py line 11). -/
def ModelType_GPT : List Char := "gpt".toList

/-- `ModelType.LLAMA.value` (constants.py line 12). -/
def ModelType_LLAMA : List Char := "llama3-8b-8192".toList

/-- `ModelType.MIXTRAL.value` (constants.py line 13). -/
def ModelType_MIXTRAL : List Char := "mixtral-8x7b-32768".toList

/-- `ErrorMessages.API_KEY_MISSING` (constants.py line 67). -/
def API_KEY_MISSING : List Char := "API key is required".toList

/-- `ErrorMessages.INVALID_MODEL` (constants.py line 68). -/
def INVALID_MODEL : List Char := "Unsupported model type: {model}".toList

/-- `ErrorMessages.ANALYSIS_ERROR` (constants.py line 70). -/
def ANALYSIS_ERROR : List Char := "Error generating analysis: {error}".toList

/-- `APIConfig.DEFAULT_TIMEOUT` (constants.py line 48). -/
def DEFAULT_TIMEOUT : Nat := 30

/-- The fixed redaction marker used by `Utils.sanitize_log_message`
(utils.py line 65). -/
def REDACTED : List Char := "[REDACTED]".toList

/-- `INVALID_MODEL.format(model=m)`: substitute the single placeholder. -/
def formatInvalidModel (m : List Char) : List Char :=
  pyReplace "{model}".toList m INVALID_MODEL

/-- `ANALYSIS_ERROR.format(error=e)`: substitute the single placeholder. -/
def formatAnalysisError (e : List Char) : List Char :=
  pyReplace "{error}".toList e ANALYSIS_ERROR

/-- `SummaryPrompts.GENERAL_SUMMARY` (prompts.py lines 13-29), the template
rendered by `generate_summary`; its only placeholder is `{content}`. -/
def GENERAL_SUMMARY : List Char :=
  ("\n        You are an Security Analyst and CSV file expert. I need a Security Assessment Summary for a recent security evaluation. The assessment should cover the following key areas:\n\n            Overview: Provide a brief summary of the assessment, including the entity as \"AI Consulting\" conducting it.\n            Mentioned Key Findings based on the content\n\n            Suggested actions for mitigating identified vulnerabilities.\n            Conclusion: Summarize the overall security posture of the organization and the importance of implementing the recommendations.\n\n            Next Steps: Outline the proposed action plan, including timelines and responsible parties, and recommend a follow-up assessment schedule.\n\n            Contact Information: Provide contact details for further inquiries or follow-up.\n\n            Please ensure the summary is clear, concise, and actionable and do not mention date anywhere. Also do not print duplicate findinds\n            Here is the content which you have to the summary of the assessment :\n            {content}\n        ").toList

/-- Render `GENERAL_SUMMARY` with a `content` binding, as
`PromptTemplate.from_template(...).invoke({"content": content})` does. -/
def renderGeneralSummary (content : List Char) : List Char :=
  pyReplace "{content}".toList content GENERAL_SUMMARY

/-! ## Model of Python exceptions and values -/

/-- A raised Python exception, reduced to its class and message. -/
inductive PyErr where
  | valueError (msg : List Char)
  | other (msg : List Char)
deriving DecidableEq

/-- Python `str(e)` on an exception: its message. -/
def pyErrStr : PyErr → List Char
  | .valueError m => m
  | .other m => m

/-- A cell value of the dataframe, as far as stringification is concerned. -/
inductive PyVal where
  | vstr (s : List Char)
  | vint (n : Int)
deriving DecidableEq

/-- Python `str(v)` on a cell value. -/
def pyValStr : PyVal → List Char
  | .vstr s => s
  | .vint n => (toString n).toList

/-- One named column of the loaded CSV, its values listed in row order;
`isNumeric` records whether `select_dtypes(include=['number'])` keeps it. -/
structure Column where
  name : List Char
  isNumeric : Bool
  values : List PyVal
deriving DecidableEq

/-- The in-memory table (`pandas.DataFrame`) as the modelled code uses it. -/
structure DataFrame where
  cols : List Column
deriving DecidableEq

/-- Python `df[name].values.tolist()`: the named column's values in row
order, or `none` when indexing would raise `KeyError`. -/
def dfLookup (df : DataFrame) (name : List Char) : Option (List PyVal) :=
  (df.cols.find? (fun c => c.name == name)).map Column.values

/-! ## utils.py -/

/-- The replacement table of `Utils.clean_text` (utils.py lines 26-38), in
dict order: newline, carriage return and tab (real and escaped) become
spaces, NBSP becomes a space, typographic quotes become plain quotes. -/
def cleanReplacements : List (List Char × List Char) :=
  [ (['\n'], [' ']), (['\r'], [' ']), (['\t'], [' ']),
    (['\\', 'n'], [' ']), (['\\', 'r'], [' ']), (['\\', 't'], [' ']),
    ([' '], [' ']),
    (['’'], ['\u0027']), (['‘'], ['\u0027']),
    (['“'], ['"']), (['”'], ['"']) ]

/-- The replacement loop of `Utils.clean_text` (utils.py lines 40-41). -/
def applyReplacements (s : List Char) : List Char :=
  cleanReplacements.foldl (fun t pr => pyReplace pr.1 pr.2 t) s

/-- `Utils.clean_text` (utils.py lines 11-45) on a string argument: run the
replacement table, collapse whitespace with `' '.join(text.split())`, then
`strip()`. (A non-string argument is returned unchanged by the source and
is outside this model.) -/
def clean_text (s : List Char) : List Char :=
  pyStrip (joinSp (pySplit (applyReplacements s)))

/-- The `sensitive_data` argument of `Utils.sanitize_log_message`: Python
accepts either a single string or a list of strings. -/
inductive SecretArg where
  | one (s : List Char)
  | many (l : List (List Char))

/-- `Utils.sanitize_log_message` (utils.py lines 47-67): a bare string is
wrapped into a one-element list, then every non-empty secret that occurs in
the running message is replaced by `[REDACTED]`. -/
def sanitize_log_message (message : List Char) (sensitive_data : SecretArg) : List Char :=
  let l := match sensitive_data with
    | .one s => [s]
    | .many l => l
  l.foldl
    (fun m data => if data ≠ [] ∧ isSubstr data m = true then pyReplace data REDACTED m else m)
    message

/-! ## main.py -/

/-- The client object `initialize_llm` returns. -/
inductive LLMClient where
  | openai (apiKey : List Char)
  | chatGroq (model apiKey : List Char) (timeout : Nat)

/-- `VulnerabilityScanner.initialize_llm` (main.py lines 36-61): an empty
(falsy) API key raises `ValueError(API_KEY_MISSING)` before any model
check; then `gpt` selects OpenAI, `llama`/`mixtral` select ChatGroq, and
anything else raises `ValueError(INVALID_MODEL.format(model=...))`. The
surrounding `except` block only logs (with the key redacted) and re-raises
the same exception, so it does not change the result. -/
def initialize_llm (model_type api_key : List Char) : Except PyErr LLMClient :=
  if api_key = [] then
    Except.error (.valueError API_KEY_MISSING)
  else if model_type = ModelType_GPT then
    Except.ok (.openai api_key)
  else if model_type = ModelType_LLAMA ∨ model_type = ModelType_MIXTRAL then
    Except.ok (.chatGroq model_type api_key DEFAULT_TIMEOUT)
  else
    Except.error (.valueError (formatInvalidModel model_type))

/-- `VulnerabilityScanner.router` (main.py lines 63-84). The LLM chain call
is the only fallible step and is modelled by its outcome `chainResult`; on
success the raw decision text is returned, on failure the handler at lines
80-84 raises `ValueError(ANALYSIS_ERROR.format(error=str(e)))`. -/
def router (chainResult : Except PyErr (List Char)) : Except PyErr (List Char) :=
  match chainResult with
  | .ok decision_factor => .ok decision_factor
  | .error e => .error (.valueError (formatAnalysisError (pyErrStr e)))

/-- `VulnerabilityScanner.general_response` (main.py lines 91-109): same
wrapping of a failed chain call as `router`, with the same
`ANALYSIS_ERROR` template (lines 105-109). -/
def general_response (chainResult : Except PyErr (List Char)) : Except PyErr (List Char) :=
  match chainResult with
  | .ok res => .ok res
  | .error e => .error (.valueError (formatAnalysisError (pyErrStr e)))

/-- The handler chosen by the dispatch in `render_ui`. -/
inductive Handler where
  | general
  | pandasai
deriving DecidableEq

/-- The dispatch on the router's response text (main.py lines 305-317):
`route = str(route_text); if "general" in route: ... else: ...`, a
case-sensitive substring test. -/
def dispatch_on_route (route_text : List Char) : Handler :=
  if isSubstr "general".toList route_text then .general else .pandasai

/-- A value returned by `get_pandasai_response`: a string, or any
non-string value (number, dataframe, chart object, ...). -/
inductive PandasResponse where
  | pstr (s : List Char)
  | pother
deriving DecidableEq

/-- What the pandasai branch of `render_ui` shows for a response. -/
structure PandasPresentation where
  written : PandasResponse
  imageShown : Bool
deriving DecidableEq

/-- The pandasai branch of `render_ui` (main.py lines 316-325): the
response is always written to the chat, and additionally
`if isinstance(response, str) and ".png" in response: st.image(response)`. -/
def present_pandasai_response (response : PandasResponse) : PandasPresentation :=
  { written := response
    imageShown :=
      match response with
      | .pstr s => isSubstr ".png".toList s
      | .pother => false }

/-- `VulnerabilityScanner.generate_summary` (main.py lines 123-153).
`columnResp` is the raw text of the column-identification chain call and
`summaryLLM` the summary chain; the code cleans `columnResp`, indexes the
dataframe with it (`KeyError` on a missing column is caught at lines
149-153 and re-raised as `ValueError(ANALYSIS_ERROR.format(...))`), joins
the stringified column values with single spaces and invokes the summary
chain on the rendered `GENERAL_SUMMARY` template. -/
def generate_summary (columnResp : List Char) (summaryLLM : List Char → List Char)
    (df : DataFrame) : Except PyErr (List Char) :=
  let description_column := clean_text columnResp
  match dfLookup df description_column with
  | none =>
    Except.error (.valueError (formatAnalysisError
      ('\u0027' :: description_column ++ ['\u0027'])))
  | some vals =>
    Except.ok (summaryLLM (renderGeneralSummary (joinSp (vals.map pyValStr))))

/-! ## query_generator.py -/

/-- `QueryGenerator._get_fallback_queries` (query_generator.py lines
195-220): three fixed queries, plus one naming the first column when the
dataframe has columns, plus one naming the first numeric column when there
is one; at most six are returned. -/
def get_fallback_queries (df : DataFrame) : List (List Char) :=
  let base : List (List Char) :=
    [ "Show me the first 10 rows of data".toList,
      "What are the basic statistics for numeric columns?".toList,
      "How many rows and columns are in this dataset?".toList ]
  let withCol :=
    match df.cols with
    | [] => base
    | c :: _ => base ++ ["Show unique values in ".toList ++ c.name]
  let withNum :=
    match df.cols.filter (fun c => c.isNumeric) with
    | [] => withCol
    | c :: _ => withCol ++ ["Create a histogram of ".toList ++ c.name]
  withNum.take 6

/-- `QueryGenerator.generate_query_suggestions` (query_generator.py lines
59-96). `pipeline` is the outcome of lines 72-88 (schema analysis, the LLM
chain call, and `_parse_query_response`, whose own failures are already
caught internally and produce a list): on success the parsed list is
truncated to `max_queries`; any raised exception is caught at lines 93-96
and the fallback list is returned instead. -/
def generate_query_suggestions (pipeline : Except PyErr (List (List Char)))
    (df : DataFrame) (max_queries : Nat) : List (List Char) :=
  match pipeline with
  | .ok queries => queries.take max_queries
  | .error _ => get_fallback_queries df

/-! ## Lemmas: pairs of adjacent characters -/

theorem hasPair_of_cons {a b x : Char} {t : List Char}
    (h : hasPair a b (x :: t) = false) : hasPair a b t = false := by
  cases t with
  | nil => simp [hasPair]
  | cons w ws =>
    simp only [hasPair, Bool.or_eq_false_iff] at h
    exact h.2

theorem hasPair_cons_false {a b x : Char} {t : List Char}
    (h1 : hasPair a b t = false) (h2 : x ≠ a ∨ t.head? ≠ some b) :
    hasPair a b (x :: t) = false := by
  cases t with
  | nil => simp [hasPair]
  | cons w ws =>
    simp only [hasPair, Bool.or_eq_false_iff]
    refine ⟨?_, h1⟩
    rcases h2 with h2 | h2
    · simp [h2]
    · simp only [List.head?_cons, ne_eq, Option.some.injEq] at h2
      simp [h2]

theorem head?_replacePair (a b e : Char) (s : List Char) :
    (replacePair a b e s).head? = some e ∨ (replacePair a b e s).head? = s.head? := by
  match s with
  | [] => right; rfl
  | [c] => right; rfl
  | c :: d :: rest =>
    by_cases h : c == a && d == b
    · left; simp [replacePair, h]
    · right; simp [replacePair, h]

theorem replacePair_hasPair_self (a b e : Char) (ha : e ≠ a) (hb : e ≠ b) :
    ∀ s, hasPair a b (replacePair a b e s) = false
  | [] => by simp [replacePair, hasPair]
  | [c] => by simp [replacePair, hasPair]
  | c :: d :: rest => by
    by_cases h : c == a && d == b
    · rw [replacePair, if_pos h]
      refine hasPair_cons_false (replacePair_hasPair_self a b e ha hb rest) (Or.inl ha)
    · rw [replacePair, if_neg h]
      refine hasPair_cons_false (replacePair_hasPair_self a b e ha hb (d :: rest)) ?_
      rcases head?_replacePair a b e (d :: rest) with hh | hh
      · rw [hh]
        by_cases hca : c = a
        · right
          simp only [ne_eq, Option.some.injEq]
          exact fun hc => hb hc
        · exact Or.inl hca
      · rw [hh]
        simp only [Bool.and_eq_true, beq_iff_eq, not_and_or] at h
        rcases h with h | h
        · exact Or.inl h
        · right
          simp only [List.head?_cons, ne_eq, Option.some.injEq]
          exact h

theorem replacePair_hasPair_pres (a b c d e : Char) (ha : e ≠ a) (hb : e ≠ b) :
    ∀ s, hasPair a b s = false → hasPair a b (replacePair c d e s) = false
  | [], _ => by simp [replacePair, hasPair]
  | [x], _ => by simp [replacePair, hasPair]
  | x :: y :: rest, h => by
    have hy : hasPair a b (y :: rest) = false := hasPair_of_cons h
    by_cases hm : x == c && y == d
    · rw [replacePair, if_pos hm]
      exact hasPair_cons_false
        (replacePair_hasPair_pres a b c d e ha hb rest (hasPair_of_cons hy)) (Or.inl ha)
    · rw [replacePair, if_neg hm]
      refine hasPair_cons_false
        (replacePair_hasPair_pres a b c d e ha hb (y :: rest) hy) ?_
      rcases head?_replacePair c d e (y :: rest) with hh | hh
      · rw [hh]
        right
        simp only [ne_eq, Option.some.injEq]
        exact fun hc => hb hc
      · rw [hh]
        simp only [hasPair, Bool.or_eq_false_iff, Bool.and_eq_false_iff] at h
        rcases h.1 with h1 | h1
        · left; simpa using h1
        · right
          simp only [List.head?_cons, ne_eq, Option.some.injEq]
          simpa using h1

theorem mem_replacePair {x : Char} (a b e : Char) :
    ∀ s, x ∈ replacePair a b e s → x = e ∨ x ∈ s
  | [], h => by simp [replacePair] at h
  | [c], h => by
    simp [replacePair] at h
    simp [h]
  | c :: d :: rest, h => by
    by_cases hm : c == a && d == b
    · rw [replacePair, if_pos hm] at h
      rcases List.mem_cons.1 h with h | h
      · exact Or.inl h
      · rcases mem_replacePair a b e rest h with h | h
        · exact Or.inl h
        · right; simp [h]
    · rw [replacePair, if_neg hm] at h
      rcases List.mem_cons.1 h with h | h
      · right; simp [h]
      · rcases mem_replacePair a b e (d :: rest) h with h | h
        · exact Or.inl h
        · right; simp [List.mem_cons] at h ⊢; tauto

theorem replacePair_id (a b e : Char) :
    ∀ s, hasPair a b s = false → replacePair a b e s = s
  | [], _ => rfl
  | [c], _ => rfl
  | c :: d :: rest, h => by
    have hm : (c == a && d == b) = false := by
      simp only [hasPair, Bool.or_eq_false_iff] at h
      exact h.1
    rw [replacePair, if_neg (by simp [hm]),
      replacePair_id a b e (d :: rest) (hasPair_of_cons h)]

/-! ## Lemmas: single-character replacement -/

theorem head?_replaceChar (a e : Char) (s : List Char) :
    (replaceChar a [e] s).head? = some e ∨ (replaceChar a [e] s).head? = s.head? := by
  match s with
  | [] => right; rfl
  | c :: cs =>
    by_cases h : c == a
    · left; simp [replaceChar, h]
    · right; simp [replaceChar, h]

theorem replaceChar_hasPair_pres (a b c e : Char) (ha : e ≠ a) (hb : e ≠ b) :
    ∀ s, hasPair a b s = false → hasPair a b (replaceChar c [e] s) = false
  | [], _ => by simp [replaceChar, hasPair]
  | x :: cs, h => by
    have hcs : hasPair a b cs = false := hasPair_of_cons h
    by_cases hm : x == c
    · rw [replaceChar, if_pos hm, List.singleton_append]
      exact hasPair_cons_false
        (replaceChar_hasPair_pres a b c e ha hb cs hcs) (Or.inl ha)
    · rw [replaceChar, if_neg hm]
      refine hasPair_cons_false
        (replaceChar_hasPair_pres a b c e ha hb cs hcs) ?_
      rcases head?_replaceChar c e cs with hh | hh
      · rw [hh]
        right
        simp only [ne_eq, Option.some.injEq]
        exact fun hc => hb hc
      · rw [hh]
        cases cs with
        | nil => right; simp
        | cons w ws =>
          simp only [hasPair, Bool.or_eq_false_iff, Bool.and_eq_false_iff] at h
          rcases h.1 with h1 | h1
          · left; simpa using h1
          · right
            simp only [List.head?_cons, ne_eq, Option.some.injEq]
            simpa using h1

theorem mem_replaceChar {x : Char} (a : Char) (r : List Char) :
    ∀ s, x ∈ replaceChar a r s → x ∈ s ∨ x ∈ r
  | [], h => by simp [replaceChar] at h
  | c :: cs, h => by
    by_cases hm : c == a
    · rw [replaceChar, if_pos hm] at h
      rcases List.mem_append.1 h with h | h
      · exact Or.inr h
      · rcases mem_replaceChar a r cs h with h | h
        · left; simp [h]
        · exact Or.inr h
    · rw [replaceChar, if_neg hm] at h
      rcases List.mem_cons.1 h with h | h
      · left; simp [h]
      · rcases mem_replaceChar a r cs h with h | h
        · left; simp [h]
        · exact Or.inr h

theorem notMem_replaceChar {x : Char} (a : Char) (r : List Char)
    (hr : x ∉ r) : ∀ s, (x = a ∨ x ∉ s) → x ∉ replaceChar a r s
  | [], _ => by simp [replaceChar]
  | c :: cs, h => by
    have htail : x = a ∨ x ∉ cs := by
      rcases h with h | h
      · exact Or.inl h
      · right; exact fun hx => h (List.mem_cons_of_mem _ hx)
    by_cases hm : c == a
    · rw [replaceChar, if_pos hm]
      intro hx
      rcases List.mem_append.1 hx with hx | hx
      · exact hr hx
      · exact notMem_replaceChar a r hr cs htail hx
    · rw [replaceChar, if_neg hm]
      intro hx
      rcases List.mem_cons.1 hx with hx | hx
      · rcases h with h | h
        · rw [hx] at h; simp [h] at hm
        · exact h (by simp [hx])
      · exact notMem_replaceChar a r hr cs htail hx

theorem replaceChar_id (a : Char) (r : List Char) :
    ∀ s, a ∉ s → replaceChar a r s = s
  | [], _ => rfl
  | c :: cs, h => by
    have hca : (c == a) = false := by
      simp only [List.mem_cons, not_or] at h
      simp [beq_eq_false_iff_ne]
      exact fun hc => h.1 hc.symm
    rw [replaceChar, if_neg (by simp [hca]),
      replaceChar_id a r cs (fun hx => h (List.mem_cons_of_mem _ hx))]

/-! ## Lemmas: the faithful replace agrees with the specialised forms -/

theorem pyReplace_one (a : Char) (r : List Char) :
    ∀ s, pyReplace [a] r s = replaceChar a r s
  | [] => rfl
  | c :: cs => by
    have : isPre [a] (c :: cs) = (c == a) := by
      simp [isPre, Bool.and_true, eq_comm, BEq.comm]
    by_cases h : c == a
    · rw [pyReplace, replaceAllAux, if_pos (by rw [this]; exact h), replaceChar, if_pos h]
      simp only [List.length_nil]
      rw [show replaceAllAux a [] r 0 cs = pyReplace [a] r cs from rfl,
        pyReplace_one a r cs]
    · rw [pyReplace, replaceAllAux, if_neg (by rw [this]; simpa using h), replaceChar, if_neg h]
      rw [show replaceAllAux a [] r 0 cs = pyReplace [a] r cs from rfl,
        pyReplace_one a r cs]

theorem pyReplace_two (a b e : Char) :
    ∀ s, pyReplace [a, b] [e] s = replacePair a b e s
  | [] => rfl
  | [c] => by
    rw [pyReplace, replaceAllAux, if_neg (by simp [isPre]), replacePair]
    rfl
  | c :: d :: rest => by
    have hpre : isPre [a, b] (c :: d :: rest) = (c == a && d == b) := by
      simp [isPre, Bool.and_true, BEq.comm]
    by_cases h : c == a && d == b
    · rw [pyReplace, replaceAllAux, if_pos (by rw [hpre]; exact h),
        replacePair, if_pos h]
      simp only [List.length_cons, List.length_nil]
      rw [show replaceAllAux a [b] [e] (0 + 1) (d :: rest) = replaceAllAux a [b] [e] 0 rest
          from rfl,
        show replaceAllAux a [b] [e] 0 rest = pyReplace [a, b] [e] rest from rfl,
        pyReplace_two a b e rest]
      rfl
    · rw [pyReplace, replaceAllAux, if_neg (by rw [hpre]; simpa using h),
        replacePair, if_neg h]
      rw [show replaceAllAux a [b] [e] 0 (d :: rest) = pyReplace [a, b] [e] (d :: rest)
          from rfl,
        pyReplace_two a b e (d :: rest)]

/-! ## Lemmas: pairs across appends -/

theorem hasPair_append_left {a b : Char} :
    ∀ x y : List Char, hasPair a b (x ++ y) = false → hasPair a b x = false
  | [], _, _ => rfl
  | [_], _, _ => rfl
  | c :: d :: x', y, h => by
    simp only [List.cons_append, hasPair, Bool.or_eq_false_iff] at h ⊢
    exact ⟨h.1, hasPair_append_left (d :: x') y h.2⟩

theorem hasPair_append_right {a b : Char} :
    ∀ x y : List Char, hasPair a b (x ++ y) = false → hasPair a b y = false
  | [], _, h => h
  | _ :: x', y, h => hasPair_append_right x' y (hasPair_of_cons (t := x' ++ y) h)

theorem hasPair_append_sp {a b : Char} (ha : a ≠ ' ') (hb : b ≠ ' ') :
    ∀ t w : List Char, hasPair a b t = false → hasPair a b w = false →
      hasPair a b (t ++ ' ' :: w) = false
  | [], w, _, hw => by
    refine hasPair_cons_false hw (Or.inl ?_)
    exact fun h => ha h.symm
  | c :: t', w, ht, hw => by
    rw [List.cons_append]
    refine hasPair_cons_false
      (hasPair_append_sp ha hb t' w (hasPair_of_cons ht) hw) ?_
    cases t' with
    | nil =>
      right
      simp only [List.nil_append, List.head?_cons, ne_eq, Option.some.injEq]
      exact fun h => hb h.symm
    | cons d t'' =>
      simp only [hasPair, Bool.or_eq_false_iff, Bool.and_eq_false_iff] at ht
      rcases ht.1 with h1 | h1
      · left; simpa using h1
      · right
        simp only [List.cons_append, List.head?_cons, ne_eq, Option.some.injEq]
        simpa using h1

/-! ## Lemmas: pySplit -/

theorem pySplitAux_ne_nil : ∀ (s acc : List Char), ∀ t ∈ pySplitAux acc s, t ≠ []
  | [], acc => by
    intro t ht
    rw [pySplitAux] at ht
    by_cases hacc : acc.isEmpty
    · rw [if_pos hacc] at ht
      simp at ht
    · rw [if_neg hacc] at ht
      simp only [List.mem_singleton] at ht
      subst ht
      simp only [ne_eq, List.reverse_eq_nil_iff]
      intro h2
      rw [h2] at hacc
      simp at hacc
  | c :: cs, acc => by
    intro t ht
    rw [pySplitAux] at ht
    by_cases hsp : pyIsSpace c
    · rw [if_pos hsp] at ht
      by_cases hacc : acc.isEmpty
      · rw [if_pos hacc] at ht
        exact pySplitAux_ne_nil cs [] t ht
      · rw [if_neg hacc] at ht
        rcases List.mem_cons.1 ht with h | h
        · subst h
          simp only [ne_eq, List.reverse_eq_nil_iff]
          intro h2
          rw [h2] at hacc
          simp at hacc
        · exact pySplitAux_ne_nil cs [] t h
    · rw [if_neg hsp] at ht
      exact pySplitAux_ne_nil cs (c :: acc) t ht

theorem pySplitAux_nonspace :
    ∀ (s acc : List Char), (∀ x ∈ acc, pyIsSpace x = false) →
      ∀ t ∈ pySplitAux acc s, ∀ x ∈ t, pyIsSpace x = false
  | [], acc => by
    intro hacc t ht x hx
    rw [pySplitAux] at ht
    by_cases h : acc.isEmpty
    · rw [if_pos h] at ht
      simp at ht
    · rw [if_neg h] at ht
      simp only [List.mem_singleton] at ht
      subst ht
      exact hacc x (List.mem_reverse.1 hx)
  | c :: cs, acc => by
    intro hacc t ht x hx
    rw [pySplitAux] at ht
    by_cases hsp : pyIsSpace c
    · rw [if_pos hsp] at ht
      by_cases h : acc.isEmpty
      · rw [if_pos h] at ht
        exact pySplitAux_nonspace cs [] (by simp) t ht x hx
      · rw [if_neg h] at ht
        rcases List.mem_cons.1 ht with h2 | h2
        · subst h2
          exact hacc x (List.mem_reverse.1 hx)
        · exact pySplitAux_nonspace cs [] (by simp) t h2 x hx
    · rw [if_neg hsp] at ht
      refine pySplitAux_nonspace cs (c :: acc) ?_ t ht x hx
      intro y hy
      rcases List.mem_cons.1 hy with h2 | h2
      · rw [h2]
        simpa using hsp
      · exact hacc y h2

theorem pySplitAux_mem :
    ∀ (s acc : List Char), ∀ t ∈ pySplitAux acc s, ∀ x ∈ t, x ∈ acc ∨ x ∈ s
  | [], acc => by
    intro t ht x hx
    rw [pySplitAux] at ht
    by_cases h : acc.isEmpty
    · rw [if_pos h] at ht
      simp at ht
    · rw [if_neg h] at ht
      simp only [List.mem_singleton] at ht
      subst ht
      exact Or.inl (List.mem_reverse.1 hx)
  | c :: cs, acc => by
    intro t ht x hx
    rw [pySplitAux] at ht
    by_cases hsp : pyIsSpace c
    · rw [if_pos hsp] at ht
      have step : t ∈ pySplitAux [] cs → x ∈ acc ∨ x ∈ c :: cs := by
        intro h2
        rcases pySplitAux_mem cs [] t h2 x hx with h3 | h3
        · simp at h3
        · exact Or.inr (List.mem_cons_of_mem _ h3)
      by_cases h : acc.isEmpty
      · rw [if_pos h] at ht
        exact step ht
      · rw [if_neg h] at ht
        rcases List.mem_cons.1 ht with h2 | h2
        · subst h2
          exact Or.inl (List.mem_reverse.1 hx)
        · exact step h2
    · rw [if_neg hsp] at ht
      rcases pySplitAux_mem cs (c :: acc) t ht x hx with h2 | h2
      · rcases List.mem_cons.1 h2 with h3 | h3
        · exact Or.inr (by simp [h3])
        · exact Or.inl h3
      · exact Or.inr (List.mem_cons_of_mem _ h2)

theorem pySplitAux_pairFree (a b : Char) :
    ∀ (s acc : List Char), hasPair a b (acc.reverse ++ s) = false →
      ∀ t ∈ pySplitAux acc s, hasPair a b t = false
  | [], acc => by
    intro hinv t ht
    rw [pySplitAux] at ht
    by_cases h : acc.isEmpty
    · rw [if_pos h] at ht
      simp at ht
    · rw [if_neg h] at ht
      simp only [List.mem_singleton] at ht
      subst ht
      rw [List.append_nil] at hinv
      exact hinv
  | c :: cs, acc => by
    intro hinv t ht
    rw [pySplitAux] at ht
    by_cases hsp : pyIsSpace c
    · rw [if_pos hsp] at ht
      have hcs : hasPair a b ([].reverse ++ cs) = false := by
        simp only [List.reverse_nil, List.nil_append]
        exact hasPair_of_cons (hasPair_append_right _ _ hinv)
      by_cases h : acc.isEmpty
      · rw [if_pos h] at ht
        exact pySplitAux_pairFree a b cs [] hcs t ht
      · rw [if_neg h] at ht
        rcases List.mem_cons.1 ht with h2 | h2
        · subst h2
          exact hasPair_append_left _ _ hinv
        · exact pySplitAux_pairFree a b cs [] hcs t h2
    · rw [if_neg hsp] at ht
      refine pySplitAux_pairFree a b cs (c :: acc) ?_ t ht
      rw [List.reverse_cons, List.append_assoc, List.singleton_append]
      exact hinv

theorem pySplitAux_append_word :
    ∀ (t acc y : List Char), (∀ x ∈ t, pyIsSpace x = false) →
      pySplitAux acc (t ++ y) = pySplitAux (t.reverse ++ acc) y
  | [], acc, y, _ => by simp
  | c :: t', acc, y, h => by
    rw [List.cons_append, pySplitAux,
      if_neg (by simp [h c (List.mem_cons_self c t')]),
      pySplitAux_append_word t' (c :: acc) y
        (fun x hx => h x (List.mem_cons_of_mem _ hx)),
      List.reverse_cons, List.append_assoc, List.singleton_append]

theorem pySplit_joinSp :
    ∀ ts : List (List Char), (∀ t ∈ ts, t ≠ []) →
      (∀ t ∈ ts, ∀ x ∈ t, pyIsSpace x = false) → pySplit (joinSp ts) = ts
  | [], _, _ => rfl
  | [t], hne, hns => by
    have ht : t ≠ [] := hne t (by simp)
    rw [joinSp, pySplit, show t = t ++ [] from (List.append_nil t).symm,
      pySplitAux_append_word t [] [] (hns t (by simp)), pySplitAux,
      if_neg (by simpa using ht)]
    simp
  | t :: t2 :: ts', hne, hns => by
    have ht : t ≠ [] := hne t (by simp)
    rw [joinSp, pySplit,
      pySplitAux_append_word t [] (' ' :: joinSp (t2 :: ts')) (hns t (by simp)),
      pySplitAux, if_pos (show pyIsSpace ' ' = true by decide),
      if_neg (by simpa using ht)]
    rw [List.append_nil, List.reverse_reverse]
    have ih := pySplit_joinSp (t2 :: ts')
      (fun u hu => hne u (List.mem_cons_of_mem _ hu))
      (fun u hu => hns u (List.mem_cons_of_mem _ hu))
    rw [pySplit] at ih
    rw [ih]

/-! ## Lemmas: joinSp -/

theorem mem_joinSp {x : Char} :
    ∀ ts : List (List Char), x ∈ joinSp ts → x = ' ' ∨ ∃ t ∈ ts, x ∈ t
  | [], h => by simp [joinSp] at h
  | [t], h => by
    rw [joinSp] at h
    exact Or.inr ⟨t, by simp, h⟩
  | t :: t2 :: ts', h => by
    rw [joinSp] at h
    rcases List.mem_append.1 h with h | h
    · exact Or.inr ⟨t, by simp, h⟩
    · rcases List.mem_cons.1 h with h | h
      · exact Or.inl h
      · rcases mem_joinSp (t2 :: ts') h with h | ⟨u, hu, hxu⟩
        · exact Or.inl h
        · exact Or.inr ⟨u, List.mem_cons_of_mem _ hu, hxu⟩

theorem joinSp_pairFree (a b : Char) (ha : a ≠ ' ') (hb : b ≠ ' ') :
    ∀ ts : List (List Char), (∀ t ∈ ts, hasPair a b t = false) →
      hasPair a b (joinSp ts) = false
  | [], _ => rfl
  | [t], h => by
    rw [joinSp]
    exact h t (by simp)
  | t :: t2 :: ts', h => by
    rw [joinSp]
    exact hasPair_append_sp ha hb t (joinSp (t2 :: ts')) (h t (by simp))
      (joinSp_pairFree a b ha hb (t2 :: ts')
        (fun u hu => h u (List.mem_cons_of_mem _ hu)))

theorem joinSp_head :
    ∀ (t : List Char) (ts : List (List Char)), t ≠ [] →
      (joinSp (t :: ts)).head? = t.head?
  | t, [], _ => by rw [joinSp]
  | [], t2 :: ts', h => absurd rfl h
  | c :: t', t2 :: ts', _ => by rw [joinSp]; rfl

theorem joinSp_rev :
    ∀ ts : List (List Char), ts ≠ [] → (∀ t ∈ ts, t ≠ []) →
      ∃ c r, (joinSp ts).reverse = c :: r ∧ ∃ t ∈ ts, c ∈ t
  | [], h, _ => absurd rfl h
  | [t], _, hne => by
    rcases t.eq_nil_or_concat with h | ⟨t', c, hc⟩
    · exact absurd h (hne t (by simp))
    · refine ⟨c, t'.reverse, ?_, t, by simp, by simp [hc]⟩
      rw [joinSp, hc]
      simp
  | t :: t2 :: ts', _, hne => by
    obtain ⟨c, r, hrev, u, hu, hcu⟩ := joinSp_rev (t2 :: ts') (by simp)
      (fun u hu => hne u (List.mem_cons_of_mem _ hu))
    refine ⟨c, r ++ ' ' :: t.reverse, ?_, u, List.mem_cons_of_mem _ hu, hcu⟩
    rw [joinSp, List.reverse_append, List.reverse_cons, hrev]
    simp

/-! ## Lemmas: strip -/

theorem dropWhile_eq_self_of_head {p : Char → Bool} :
    ∀ l : List Char, (∀ c, l.head? = some c → p c = false) → l.dropWhile p = l
  | [], _ => rfl
  | c :: cs, h => by
    rw [List.dropWhile_cons, if_neg (by simp [h c rfl])]

theorem pyStrip_joinSp :
    ∀ ts : List (List Char), (∀ t ∈ ts, t ≠ []) →
      (∀ t ∈ ts, ∀ x ∈ t, pyIsSpace x = false) → pyStrip (joinSp ts) = joinSp ts
  | [], _, _ => rfl
  | t :: ts', hne, hns => by
    have ht : t ≠ [] := hne t (by simp)
    have hfront : (joinSp (t :: ts')).dropWhile pyIsSpace = joinSp (t :: ts') := by
      refine dropWhile_eq_self_of_head _ (fun c hc => ?_)
      rw [joinSp_head t ts' ht] at hc
      refine hns t (by simp) c ?_
      cases t with
      | nil => simp at hc
      | cons d t'' =>
        simp only [List.head?_cons, Option.some.injEq] at hc
        simp [hc]
    have hback : (joinSp (t :: ts')).reverse.dropWhile pyIsSpace
        = (joinSp (t :: ts')).reverse := by
      obtain ⟨c, r, hrev, u, hu, hcu⟩ := joinSp_rev (t :: ts') (by simp) hne
      refine dropWhile_eq_self_of_head _ (fun d hd => ?_)
      rw [hrev] at hd
      simp only [List.head?_cons, Option.some.injEq] at hd
      subst hd
      exact hns u hu _ hcu
    rw [pyStrip, hfront, hback, List.reverse_reverse]

/-! ## Lemmas: the clean_text replacement chain -/

theorem notMem_replacePair {x : Char} (a b e : Char) (he : x ≠ e) :
    ∀ s, x ∉ s → x ∉ replacePair a b e s := fun s hs hx =>
  (mem_replacePair a b e s hx).elim (fun h => he h) (fun h => hs h)

theorem applyReplacements_eq (s : List Char) :
    applyReplacements s =
      replaceChar '”' ['"'] (replaceChar '“' ['"']
        (replaceChar '‘' ['\u0027'] (replaceChar '’' ['\u0027']
          (replaceChar ' ' [' ']
            (replacePair '\\' 't' ' ' (replacePair '\\' 'r' ' '
              (replacePair '\\' 'n' ' '
                (replaceChar '\t' [' '] (replaceChar '\r' [' ']
                  (replaceChar '\n' [' '] s)))))))))) := by
  simp only [applyReplacements, cleanReplacements, List.foldl_cons, List.foldl_nil,
    pyReplace_one, pyReplace_two]

/-- The characters `clean_text` is claimed to eliminate: newline, carriage
return, tab, non-breaking space and the four typographic quotes. -/
def specialChars : List Char :=
  ['\n', '\r', '\t', ' ', '’', '‘', '“', '”']

/-- Boolean test: does `s` contain any of the special characters? -/
def containsAnySpecial (s : List Char) : Bool :=
  s.any (fun c => specialChars.contains c)

theorem applyReplacements_special (x : Char) (hx : x ∈ specialChars) (s : List Char) :
    x ∉ applyReplacements s := by
  rw [applyReplacements_eq]
  fin_cases hx <;>
    repeat
      first
      | exact notMem_replaceChar _ _ (by decide) _ (Or.inl rfl)
      | (refine notMem_replaceChar _ _ (by decide) _ (Or.inr ?_))
      | (refine notMem_replacePair _ _ _ (by decide) _ ?_)

theorem applyReplacements_pairFree (s : List Char) :
    hasPair '\\' 'n' (applyReplacements s) = false ∧
      hasPair '\\' 'r' (applyReplacements s) = false ∧
      hasPair '\\' 't' (applyReplacements s) = false := by
  rw [applyReplacements_eq]
  refine ⟨?_, ?_, ?_⟩ <;>
    repeat
      first
      | exact replacePair_hasPair_self _ _ _ (by decide) (by decide) _
      | (refine replaceChar_hasPair_pres _ _ _ _ (by decide) (by decide) _ ?_)
      | (refine replacePair_hasPair_pres _ _ _ _ _ (by decide) (by decide) _ ?_)

theorem applyReplacements_id (y : List Char)
    (hchars : ∀ x ∈ specialChars, x ∉ y)
    (h1 : hasPair '\\' 'n' y = false) (h2 : hasPair '\\' 'r' y = false)
    (h3 : hasPair '\\' 't' y = false) : applyReplacements y = y := by
  rw [applyReplacements_eq,
    replaceChar_id _ _ y (hchars '\n' (by decide)),
    replaceChar_id _ _ y (hchars '\r' (by decide)),
    replaceChar_id _ _ y (hchars '\t' (by decide)),
    replacePair_id _ _ _ y h1, replacePair_id _ _ _ y h2, replacePair_id _ _ _ y h3,
    replaceChar_id _ _ y (hchars ' ' (by decide)),
    replaceChar_id _ _ y (hchars '’' (by decide)),
    replaceChar_id _ _ y (hchars '‘' (by decide)),
    replaceChar_id _ _ y (hchars '“' (by decide)),
    replaceChar_id _ _ y (hchars '”' (by decide))]

theorem clean_text_eq_joinSp (s : List Char) :
    clean_text s = joinSp (pySplit (applyReplacements s)) := by
  rw [clean_text]
  exact pyStrip_joinSp _ (pySplitAux_ne_nil _ [])
    (pySplitAux_nonspace _ [] (by simp))

theorem clean_text_fixed (s : List Char) :
    clean_text (joinSp (pySplit (applyReplacements s)))
      = joinSp (pySplit (applyReplacements s)) := by
  have hne : ∀ t ∈ pySplit (applyReplacements s), t ≠ [] :=
    pySplitAux_ne_nil (applyReplacements s) []
  have hns : ∀ t ∈ pySplit (applyReplacements s), ∀ x ∈ t, pyIsSpace x = false :=
    pySplitAux_nonspace (applyReplacements s) [] (by simp)
  have hspecial : ∀ x ∈ specialChars,
      x ∉ joinSp (pySplit (applyReplacements s)) := by
    intro x hxs hxy
    rcases mem_joinSp _ hxy with h | ⟨t, ht, hxt⟩
    · subst h; revert hxs; decide
    · rcases pySplitAux_mem (applyReplacements s) [] t ht x hxt with h | h
      · simp at h
      · exact applyReplacements_special x hxs s h
  obtain ⟨hp1, hp2, hp3⟩ := applyReplacements_pairFree s
  have tpF : ∀ a b : Char, hasPair a b (applyReplacements s) = false →
      ∀ t ∈ pySplit (applyReplacements s), hasPair a b t = false := by
    intro a b h t ht
    exact pySplitAux_pairFree a b (applyReplacements s) [] (by simpa using h) t ht
  have hy1 := joinSp_pairFree '\\' 'n' (by decide) (by decide) _ (tpF _ _ hp1)
  have hy2 := joinSp_pairFree '\\' 'r' (by decide) (by decide) _ (tpF _ _ hp2)
  have hy3 := joinSp_pairFree '\\' 't' (by decide) (by decide) _ (tpF _ _ hp3)
  rw [clean_text, applyReplacements_id _ hspecial hy1 hy2 hy3,
    pySplit_joinSp _ hne hns,
    pyStrip_joinSp _ hne hns]

theorem containsAnySpecial_clean (s : List Char) :
    containsAnySpecial (clean_text s) = false := by
  rw [clean_text_eq_joinSp, containsAnySpecial]
  rw [List.any_eq_false]
  intro x hx
  have hnotmem : x ∉ specialChars := by
    intro hxs
    rcases mem_joinSp _ hx with h | ⟨t, ht, hxt⟩
    · subst h; revert hxs; decide
    · rcases pySplitAux_mem (applyReplacements s) [] t ht x hxt with h | h
      · simp at h
      · exact applyReplacements_special x hxs s h
  simpa using hnotmem

/-! ## Lemmas: occurrences after a full replace -/

theorem replaceAllAux_zero_cons (a : Char) (ps r : List Char) (c : Char) (cs : List Char) :
    replaceAllAux a ps r 0 (c :: cs) =
      if isPre (a :: ps) (c :: cs) then r ++ replaceAllAux a ps r ps.length cs
      else c :: replaceAllAux a ps r 0 cs := rfl

theorem replaceAllAux_skip (a : Char) (ps r : List Char) :
    ∀ (k : Nat) (s : List Char),
      replaceAllAux a ps r k s = replaceAllAux a ps r 0 (s.drop k)
  | 0, s => by rw [List.drop_zero]
  | k + 1, [] => by rw [List.drop_nil]; rfl
  | k + 1, c :: cs => by
    rw [show replaceAllAux a ps r (k + 1) (c :: cs) = replaceAllAux a ps r k cs from rfl,
      replaceAllAux_skip a ps r k cs, List.drop_succ_cons]

theorem pyReplace_cons_pos (a : Char) (ps r : List Char) (c : Char) (cs : List Char)
    (h : isPre (a :: ps) (c :: cs) = true) :
    pyReplace (a :: ps) r (c :: cs) = r ++ pyReplace (a :: ps) r (cs.drop ps.length) := by
  rw [pyReplace, replaceAllAux_zero_cons, if_pos h, replaceAllAux_skip]
  rfl

theorem pyReplace_cons_neg (a : Char) (ps r : List Char) (c : Char) (cs : List Char)
    (h : isPre (a :: ps) (c :: cs) = false) :
    pyReplace (a :: ps) r (c :: cs) = c :: pyReplace (a :: ps) r cs := by
  rw [pyReplace, replaceAllAux_zero_cons, if_neg (by simp [h])]
  rfl

theorem isSubstr_append_left (p : List Char) (hp : p ≠ []) :
    ∀ x y : List Char, (∀ c ∈ p, c ∉ x) → isSubstr p (x ++ y) = isSubstr p y
  | [], y, _ => by rw [List.nil_append]
  | c :: x', y, hx => by
    rw [List.cons_append, isSubstr]
    have hpre : isPre p (c :: (x' ++ y)) = false := by
      cases p with
      | nil => exact absurd rfl hp
      | cons ph pt =>
        have hph : ph ∉ c :: x' := hx ph (by simp)
        simp only [List.mem_cons, not_or] at hph
        rw [isPre]
        simp [hph.1]
    rw [hpre, Bool.false_or]
    exact isSubstr_append_left p hp x' y
      (fun d hd hdx => hx d hd (List.mem_cons_of_mem _ hdx))

theorem isPre_pyReplace (a : Char) (ps r : List Char) (hr : r ≠ []) :
    ∀ s q : List Char, (∀ c ∈ q, c ∉ r) →
      isPre q (pyReplace (a :: ps) r s) = true → isPre q s = true
  | [], q => by
    intro hq h
    cases q with
    | nil => rfl
    | cons qh qt => simp [pyReplace, replaceAllAux, isPre] at h
  | c :: cs, q => by
    intro hq h
    by_cases hm : isPre (a :: ps) (c :: cs) = true
    · rw [pyReplace_cons_pos a ps r c cs hm] at h
      cases q with
      | nil => rfl
      | cons qh qt =>
        cases r with
        | nil => exact absurd rfl hr
        | cons rh rt =>
          rw [List.cons_append, isPre, Bool.and_eq_true] at h
          obtain ⟨h1, _⟩ := h
          have h1 : qh = rh := by simpa using h1
          exact absurd (by simp [h1] : qh ∈ rh :: rt) (hq qh (by simp))
    · rw [pyReplace_cons_neg a ps r c cs (by simpa using hm)] at h
      cases q with
      | nil => rfl
      | cons qh qt =>
        rw [isPre] at h ⊢
        rw [Bool.and_eq_true] at h
        obtain ⟨h1, h2⟩ := h
        rw [h1, Bool.true_and]
        exact isPre_pyReplace a ps r hr cs qt
          (fun d hd => hq d (List.mem_cons_of_mem _ hd)) h2

theorem isSubstr_pyReplace (a : Char) (ps r : List Char) (hr : r ≠ [])
    (hchars : ∀ c ∈ a :: ps, c ∉ r) :
    ∀ s : List Char, isSubstr (a :: ps) (pyReplace (a :: ps) r s) = false
  | [] => by simp [pyReplace, replaceAllAux, isSubstr]
  | c :: cs => by
    by_cases hm : isPre (a :: ps) (c :: cs) = true
    · rw [pyReplace_cons_pos a ps r c cs hm,
        isSubstr_append_left (a :: ps) (by simp) r _ hchars]
      exact isSubstr_pyReplace a ps r hr hchars (cs.drop ps.length)
    · rw [pyReplace_cons_neg a ps r c cs (by simpa using hm), isSubstr,
        isSubstr_pyReplace a ps r hr hchars cs, Bool.or_false]
      by_contra hcon
      have hcon : isPre (a :: ps) (c :: pyReplace (a :: ps) r cs) = true := by
        simpa using hcon
      rw [isPre, Bool.and_eq_true] at hcon
      obtain ⟨h3, h4⟩ := hcon
      have h5 : isPre ps cs = true :=
        isPre_pyReplace a ps r hr cs ps
          (fun d hd => hchars d (List.mem_cons_of_mem _ hd)) h4
      have h6 : isPre (a :: ps) (c :: cs) = true := by
        rw [isPre, h3, Bool.true_and]
        exact h5
      exact hm h6
termination_by s => s.length
decreasing_by
  all_goals (simp [List.length_drop]; try omega)

/-! ## Claim C1 -/

/-- C1: the router/dispatch logic classifies by a case-sensitive substring
search for the literal token "general" in the model response: the general
handler is selected exactly when the response contains "general", and any
response without it — such as "pandasaiAgent", or the upper-case
"GENERAL" — selects the data-analysis (pandasai) handler. -/
theorem c1_router_dispatch_substring :
    (∀ r : List Char,
        (dispatch_on_route r = Handler.general ↔ isSubstr "general".toList r = true) ∧
          (dispatch_on_route r = Handler.pandasai ↔ isSubstr "general".toList r = false)) ∧
      dispatch_on_route "pandasaiAgent".toList = Handler.pandasai ∧
      dispatch_on_route "GENERAL".toList = Handler.pandasai := by
  refine ⟨fun r => ?_, by decide, by decide⟩
  rw [dispatch_on_route]
  by_cases h : isSubstr "general".toList r = true
  · simp [h]
  · simp only [Bool.not_eq_true] at h
    simp [h]

/-! ## Claim C2 -/

/-- C2 counterexample: when the chain call inside `router` fails, the
raised error is `ValueError` with the `ANALYSIS_ERROR`-formatted message,
byte-for-byte the same error `general_response` (an analysis handler)
raises on the same underlying exception — so the routing failure is not
surfaced as a distinct routing-specific error kind. -/
theorem c2_router_error_is_analysis_error :
    router (Except.error (PyErr.other "boom".toList)) =
        Except.error (PyErr.valueError (formatAnalysisError "boom".toList)) ∧
      general_response (Except.error (PyErr.other "boom".toList)) =
        router (Except.error (PyErr.other "boom".toList)) ∧
      formatAnalysisError "boom".toList = "Error generating analysis: boom".toList :=
  ⟨rfl, rfl, by decide⟩

/-- C2 amended: if the model-completion call inside `route` fails, `router`
always fails — it never silently returns a default route label — but the
error it raises is `ValueError(ANALYSIS_ERROR.format(...))`, the same
error kind the analysis handlers use, not a distinct routing error. -/
theorem c2_router_failure_propagates (e : PyErr) :
    router (Except.error e) =
        Except.error (PyErr.valueError (formatAnalysisError (pyErrStr e))) ∧
      ∀ d : List Char, router (Except.error e) ≠ Except.ok d :=
  ⟨rfl, fun d h => by simp [router] at h⟩

/-! ## Claim C3 -/

/-- C3: `clean_text` is idempotent on every string input, and its output
never contains a newline, carriage return, tab, non-breaking space or
typographic quote character. -/
theorem c3_clean_text_idempotent_and_special_free (s : List Char) :
    clean_text (clean_text s) = clean_text s ∧
      containsAnySpecial (clean_text s) = false := by
  constructor
  · rw [clean_text_eq_joinSp s]
    exact clean_text_fixed s
  · exact containsAnySpecial_clean s

/-! ## Claim C4 -/

/-- C4 counterexample: for the message "]]]" and the non-empty secret "]]"
which does occur in it, the sanitized output is "[REDACTED]]", which still
contains the secret verbatim: the marker's closing bracket recombines with
the remaining text. -/
theorem c4_redact_can_leak_secret :
    "]]".toList ≠ [] ∧
      isSubstr "]]".toList "]]]".toList = true ∧
      sanitize_log_message "]]]".toList (SecretArg.one "]]".toList)
        = "[REDACTED]]".toList ∧
      isSubstr "]]".toList
        (sanitize_log_message "]]]".toList (SecretArg.one "]]".toList)) = true :=
  ⟨by decide, by decide, by decide, by decide⟩

/-- C4 amended: `sanitize_log_message` replaces every left-to-right
non-overlapping occurrence of the secret with "[REDACTED]", and whenever
the non-empty secret shares no character with that marker the output
contains no occurrence of the secret at all; without that proviso the
marker may recombine with adjacent text, as in the counterexample. -/
theorem c4_redact_no_secret (msg secret : List Char) (h1 : secret ≠ [])
    (h2 : ∀ c ∈ secret, c ∉ REDACTED) :
    isSubstr secret (sanitize_log_message msg (SecretArg.one secret)) = false := by
  cases secret with
  | nil => exact absurd rfl h1
  | cons a ps =>
    simp only [sanitize_log_message, List.foldl_cons, List.foldl_nil]
    by_cases hg : (a :: ps) ≠ [] ∧ isSubstr (a :: ps) msg = true
    · rw [if_pos hg]
      exact isSubstr_pyReplace a ps REDACTED (by decide) h2 msg
    · rw [if_neg hg]
      rcases not_and_or.mp hg with h | h
      · exact absurd (by simp) h
      · simpa using h

/-- C4 witness: the amended redaction theorem applied to the message
"api key sk42 used" and the secret "sk42". -/
theorem c4_redact_no_secret_witness :
    isSubstr "sk42".toList
      (sanitize_log_message "api key sk42 used".toList
        (SecretArg.one "sk42".toList)) = false :=
  c4_redact_no_secret "api key sk42 used".toList "sk42".toList (by decide) (by decide)

/-! ## Claim C5 -/

/-- C5: constructing the model gateway with an empty credential fails with
the `API_KEY_MISSING` `ValueError` for every model identity whatsoever,
i.e. the emptiness check takes priority over model-identity validation. -/
theorem c5_empty_api_key (model_type : List Char) :
    initialize_llm model_type [] = Except.error (PyErr.valueError API_KEY_MISSING) := by
  rw [initialize_llm, if_pos rfl]

/-! ## Claim C6 -/

/-- C6: with a non-empty credential, any model identity outside the
supported set (gpt, llama3-8b-8192, mixtral-8x7b-32768) — in particular
the sentinel "None" — makes `initialize_llm` fail with the
`INVALID_MODEL` (unsupported model) `ValueError` naming that identity. -/
theorem c6_unsupported_model (model_type api_key : List Char)
    (hk : api_key ≠ []) (h1 : model_type ≠ ModelType_GPT)
    (h2 : model_type ≠ ModelType_LLAMA) (h3 : model_type ≠ ModelType_MIXTRAL) :
    initialize_llm model_type api_key
      = Except.error (PyErr.valueError (formatInvalidModel model_type)) := by
  rw [initialize_llm, if_neg hk, if_neg h1,
    if_neg (by rintro (h | h); exacts [h2 h, h3 h])]

/-- C6 witness: the sentinel model identity "None" with a non-empty key. -/
theorem c6_unsupported_model_witness :
    initialize_llm ModelType_NONE "k".toList
      = Except.error (PyErr.valueError (formatInvalidModel ModelType_NONE)) :=
  c6_unsupported_model ModelType_NONE "k".toList
    (by decide) (by decide) (by decide) (by decide)

/-! ## Claim C7 -/

/-- C7 counterexample: the string response "temp_chart.png saved" does not
end with the image suffix ".png", yet the dispatcher presents it as an
image, because the source tests `".png" in response` (containment), not an
ends-with condition. -/
theorem c7_contains_vs_endswith :
    (present_pandasai_response
        (PandasResponse.pstr "temp_chart.png saved".toList)).imageShown = true ∧
      isSuffix ".png".toList "temp_chart.png saved".toList = false :=
  ⟨by decide, by decide⟩

/-- C7 amended: the pandasai branch always writes the response value to the
chat, and additionally presents it as an image exactly when the value is a
string containing ".png" anywhere (not only when it ends with ".png"). -/
theorem c7_presentation (r : PandasResponse) :
    (present_pandasai_response r).written = r ∧
      ((present_pandasai_response r).imageShown = true ↔
        ∃ s, r = PandasResponse.pstr s ∧ isSubstr ".png".toList s = true) := by
  refine ⟨rfl, ?_⟩
  cases r with
  | pstr s => simp [present_pandasai_response]
  | pother => simp [present_pandasai_response]

/-! ## Claim C8 -/

/-- C8: whenever the cleaned column-identification response names a column
present in the dataframe, `generate_summary` succeeds and invokes the
summary chain on the `GENERAL_SUMMARY` template rendered with a `content`
binding equal to the stringified values of that column, across all rows in
row order, joined with single spaces. -/
theorem c8_generate_summary_content (columnResp : List Char)
    (summaryLLM : List Char → List Char) (df : DataFrame) (vals : List PyVal)
    (h : dfLookup df (clean_text columnResp) = some vals) :
    generate_summary columnResp summaryLLM df
      = Except.ok (summaryLLM (renderGeneralSummary (joinSp (vals.map pyValStr)))) := by
  simp only [generate_summary, h]

/-- The dataframe of the specification's summary scenario: columns id,
description and severity, two rows. -/
def dfScan : DataFrame :=
  { cols :=
      [ { name := "id".toList, isNumeric := true,
          values := [PyVal.vint 1, PyVal.vint 2] },
        { name := "description".toList, isNumeric := false,
          values := [PyVal.vstr "SQL injection in login form".toList,
            PyVal.vstr "Reflected XSS".toList] },
        { name := "severity".toList, isNumeric := false,
          values := [PyVal.vstr "High".toList, PyVal.vstr "Medium".toList] } ] }

/-- C8 witness: on `dfScan`, a raw column response of "description\n"
(cleaned to "description") leads to a summary-chain call whose content is
the two description cells joined by one space. -/
theorem c8_generate_summary_content_witness :
    generate_summary "description\n".toList (fun s => s) dfScan
      = Except.ok (renderGeneralSummary
          (joinSp ([PyVal.vstr "SQL injection in login form".toList,
            PyVal.vstr "Reflected XSS".toList].map pyValStr))) :=
  c8_generate_summary_content "description\n".toList (fun s => s) dfScan
    [PyVal.vstr "SQL injection in login form".toList,
      PyVal.vstr "Reflected XSS".toList] (by decide)

/-! ## Claim C9 -/

/-- C9: passing a bare secret string to `sanitize_log_message` behaves
exactly like passing the one-element list holding it; an empty secret
leaves the message unchanged, and so does a secret that does not occur in
the message. -/
theorem c9_sanitize_string_vs_list (msg s : List Char) :
    sanitize_log_message msg (SecretArg.one s)
        = sanitize_log_message msg (SecretArg.many [s]) ∧
      sanitize_log_message msg (SecretArg.one []) = msg ∧
      (isSubstr s msg = false → sanitize_log_message msg (SecretArg.one s) = msg) := by
  refine ⟨rfl, by simp [sanitize_log_message], fun h => ?_⟩
  simp [sanitize_log_message, h]

/-- C9 witness: instantiation at the message "abc" and the secret "zz",
which does not occur in the message. -/
theorem c9_sanitize_string_vs_list_witness :
    sanitize_log_message "abc".toList (SecretArg.one "zz".toList) = "abc".toList :=
  (c9_sanitize_string_vs_list "abc".toList "zz".toList).2.2 (by decide)

/-! ## Claim C10 -/

/-- A dataframe with a single numeric column, used to exercise the
fallback-query path. -/
def dfNum : DataFrame :=
  { cols := [ { name := "severity".toList
                isNumeric := true
                values := [PyVal.vint 5] } ] }

/-- C10 counterexample: with `max_queries = 2` and a failing pipeline, the
fallback list for a dataframe with a numeric column has five entries, so
`generate_query_suggestions` returns more than `max_queries` queries. -/
theorem c10_fallback_exceeds_bound :
    (generate_query_suggestions (Except.error (PyErr.other "boom".toList))
        dfNum 2).length = 5 ∧
      ¬ (generate_query_suggestions (Except.error (PyErr.other "boom".toList))
          dfNum 2).length ≤ 2 :=
  ⟨by decide, by decide⟩

/-- C10 amended: `generate_query_suggestions` always returns a plain list
(every failure of the schema/chain/parsing pipeline is caught rather than
propagated): on success the parsed queries are truncated to at most
`max_queries`; on failure the fallback list is returned, which has at most
six entries but is not truncated to `max_queries`. -/
theorem c10_suggestions_total (pipeline : Except PyErr (List (List Char)))
    (df : DataFrame) (max_queries : Nat) :
    (∀ qs, pipeline = Except.ok qs →
        generate_query_suggestions pipeline df max_queries = qs.take max_queries ∧
          (generate_query_suggestions pipeline df max_queries).length ≤ max_queries) ∧
      (∀ e, pipeline = Except.error e →
        generate_query_suggestions pipeline df max_queries = get_fallback_queries df ∧
          (get_fallback_queries df).length ≤ 6) := by
  constructor
  · rintro qs rfl
    refine ⟨rfl, ?_⟩
    simp [generate_query_suggestions, List.length_take]
  · rintro e rfl
    refine ⟨rfl, ?_⟩
    simp only [get_fallback_queries]
    split <;> split <;> simp [List.length_take]

/-- C10 witness: the amended theorem applied to a concrete successful
pipeline (truncation to two queries) and to a concrete failing one
(fallback list returned). -/
theorem c10_suggestions_total_witness :
    generate_query_suggestions
        (Except.ok ["q1".toList, "q2".toList, "q3".toList]) dfNum 2
        = ["q1".toList, "q2".toList] ∧
      generate_query_suggestions (Except.error (PyErr.other "x".toList)) dfNum 3
        = get_fallback_queries dfNum := by
  constructor
  · have h := (c10_suggestions_total
      (Except.ok ["q1".toList, "q2".toList, "q3".toList]) dfNum 2).1
      ["q1".toList, "q2".toList, "q3".toList] rfl
    rw [h.1]
    decide
  · exact ((c10_suggestions_total (Except.error (PyErr.other "x".toList)) dfNum 3).2
      (PyErr.other "x".toList) rfl).1

/-- C1 witness: the dispatch theorem applied to a concrete response text
containing the token "general". -/
theorem c1_router_dispatch_substring_witness :
    dispatch_on_route "route is general because it is a greeting".toList
      = Handler.general :=
  ((c1_router_dispatch_substring.1
    "route is general because it is a greeting".toList).1).mpr (by decide)

/-- C2 witness: the amended router-failure theorem applied to a concrete
failing chain call. -/
theorem c2_router_failure_propagates_witness :
    router (Except.error (PyErr.other "timeout".toList)) =
      Except.error (PyErr.valueError (formatAnalysisError "timeout".toList)) :=
  (c2_router_failure_propagates (PyErr.other "timeout".toList)).1

/-- C3 witness: idempotence and special-character freedom of `clean_text`
at the concrete input "a\nb c". -/
theorem c3_clean_text_witness :
    clean_text (clean_text "a\nb c".toList) = clean_text "a\nb c".toList ∧
      containsAnySpecial (clean_text "a\nb c".toList) = false :=
  c3_clean_text_idempotent_and_special_free "a\nb c".toList

/-- C5 witness: empty credential with the valid identity "gpt". -/
theorem c5_empty_api_key_witness :
    initialize_llm ModelType_GPT []
      = Except.error (PyErr.valueError API_KEY_MISSING) :=
  c5_empty_api_key ModelType_GPT

/-- C7 witness: the amended presentation theorem applied to the concrete
string response "plot.png". -/
theorem c7_presentation_witness :
    (present_pandasai_response (PandasResponse.pstr "plot.png".toList)).imageShown
      = true :=
  (c7_presentation (PandasResponse.pstr "plot.png".toList)).2.mpr
    ⟨"plot.png".toList, rfl, by decide⟩
